import Mathlib

/-!
Verification of the whatwatt-homey event-stream layer.

The definitions below are a shallow embedding of the JavaScript sources:
  * `src/lib/utils.js`  — `parseSSE` (SSE frame parser) and its helpers,
  * `src/lib/eventstream.js` — the `WhatwattEventStream` connection manager,
  * the authentication helpers — `detectAuthScheme`.

Strings are modelled as `List Char`; the JS regexes `/\n\n+/` and `/\r\n|\n/`
are modelled by explicit recursive splitters with the same leftmost-greedy
semantics.
-/

namespace Whatwatt

/-! ## Character-level helpers (JS string methods) -/

/-- JS whitespace for `String.prototype.trim` restricted to the ASCII range
(space, tab, newline, carriage return, vertical tab, form feed). -/
def isJsSpace (c : Char) : Bool :=
  c = ' ' || c = '\t' || c = '\n' || c = '\r' || c = '\x0b' || c = '\x0c'

/-- JS `String.prototype.trim`: drop leading and trailing whitespace. -/
def trimChars (cs : List Char) : List Char :=
  ((cs.dropWhile isJsSpace).reverse.dropWhile isJsSpace).reverse

/-- Drops the leading run of `'\n'` characters (the `+` of `/\n\n+/`). -/
def dropLeadingNewlines : List Char → List Char
  | [] => []
  | c :: rest => if c = '\n' then dropLeadingNewlines rest else c :: rest

theorem dropLeadingNewlines_length_le (cs : List Char) :
    (dropLeadingNewlines cs).length ≤ cs.length := by
  induction cs with
  | nil => simp [dropLeadingNewlines]
  | cons c rest ih =>
    by_cases h : c = '\n' <;> simp [dropLeadingNewlines, h]
    exact Nat.le_succ_of_le ih

/-- Prepends a character to the first token of a split result
(the continuing-token case of the splitters). -/
def consOnHead (c : Char) : List (List Char) → List (List Char)
  | [] => [[c]]
  | t :: ts => (c :: t) :: ts

/-- JS `buffer.split(/\n\n+/)`: split at each maximal run of two or more
newlines.  Like the JS regex split, always returns at least one token, and
keeps empty tokens (including a trailing one). -/
def splitBlocks : List Char → List (List Char)
  | [] => [[]]
  | '\n' :: '\n' :: rest => [] :: splitBlocks (dropLeadingNewlines rest)
  | c :: rest => consOnHead c (splitBlocks rest)
termination_by cs => cs.length
decreasing_by
  · simpa using Nat.lt_succ_of_le
      (Nat.le_succ_of_le (dropLeadingNewlines_length_le rest))
  · simp

/-- JS `block.split(/\r\n|\n/)`. -/
def splitLines : List Char → List (List Char)
  | [] => [[]]
  | '\r' :: '\n' :: rest => [] :: splitLines rest
  | '\n' :: rest => [] :: splitLines rest
  | c :: rest => consOnHead c (splitLines rest)

/-! ## The SSE frame parser (`parseSSE` in `src/lib/utils.js`) -/

/-- A parsed SSE frame: `{event, data}` as pushed by `parseSSE`. -/
structure SSEvent where
  event : List Char
  data : List Char
deriving DecidableEq, Repr

/-- One line of the per-block loop of `parseSSE`: state is the pair
`(eventType, data)`. -/
def processLine (st : List Char × List Char) (line : List Char) :
    List Char × List Char :=
  if ("event:".toList).isPrefixOf line then
    (trimChars (line.drop 6), st.2)
  else if ("data:".toList).isPrefixOf line then
    (st.1, (if st.2.isEmpty then [] else st.2 ++ ['\n']) ++ trimChars (line.drop 5))
  else st

/-- Processes one complete block: fold the lines with initial state
`('message', '')`. -/
def parseBlock (block : List Char) : SSEvent :=
  let p := (splitLines block).foldl processLine ("message".toList, [])
  ⟨p.1, p.2⟩

/-- The push guard `if (eventType || data)` of `parseSSE` (JS truthiness of
the two strings). -/
def keepEvent (e : SSEvent) : Bool :=
  !e.event.isEmpty || !e.data.isEmpty

/-- `parseSSE(buffer)` from `src/lib/utils.js`: split into blocks, the last
token is the remainder, every completed block is parsed and pushed when the
guard holds. -/
def parseSSE (buffer : List Char) : List SSEvent × List Char :=
  (((splitBlocks buffer).dropLast.map parseBlock).filter keepEvent,
    (splitBlocks buffer).getLastD [])

/-! ## Incremental feeding (the read loop of `WhatwattEventStream.start`)

The read loop keeps a buffer, appends each received chunk, parses, and
retains the remainder: `buffer += text; {events, remainder} = parseSSE(buffer);
buffer = remainder`. -/

/-- Feeds a list of chunks through `parseSSE`, prepending the running
remainder each time, and concatenates all emitted frames. -/
def feedChunks : List (List Char) → List Char → List SSEvent × List Char
  | [], r => ([], r)
  | c :: cs, r =>
    let p := parseSSE (r ++ c)
    let q := feedChunks cs p.2
    (p.1 ++ q.1, q.2)

/-! ## Newline-run scanning predicates used by the chunking proofs -/

/-- `noRun3 n cs` scans `cs` with `n` newlines already pending and fails as
soon as a run of three newlines completes.  `noRun3 0 cs = true` means `cs`
contains no `"\n\n\n"` substring. -/
def noRun3 : Nat → List Char → Bool
  | _, [] => true
  | n, c :: rest =>
    if c = '\n' then decide (n + 1 < 3) && noRun3 (n + 1) rest
    else noRun3 0 rest

/-- `hasDouble cs = true` iff `cs` contains two consecutive newlines. -/
def hasDouble : List Char → Bool
  | [] => false
  | c :: rest => (decide (c = '\n') && decide (rest.head? = some '\n')) || hasDouble rest

/-! ## Well-formed SSE wire text -/

/-- A frame on the wire: each line followed by `'\n'`, then the terminating
blank line (one extra `'\n'`). -/
def frameChars (ls : List (List Char)) : List Char :=
  (ls.map (fun l => l ++ ['\n'])).join ++ ['\n']

/-- A well-formed SSE stream: the concatenation of complete frames. -/
def wireChars (fs : List (List (List Char))) : List Char :=
  (fs.map frameChars).join

/-- Frame lines are non-empty and contain no newline. -/
def GoodLines (ls : List (List Char)) : Prop :=
  ls ≠ [] ∧ ∀ l ∈ ls, l ≠ [] ∧ '\n' ∉ l

instance (ls : List (List Char)) : Decidable (GoodLines ls) := by
  unfold GoodLines
  infer_instance

/-- A well-formed frame list: every frame has good lines. -/
def GoodFrames (fs : List (List (List Char))) : Prop :=
  ∀ ls ∈ fs, GoodLines ls

instance (fs : List (List (List Char))) : Decidable (GoodFrames fs) := by
  unfold GoodFrames
  infer_instance

/-- Joins lines with single `'\n'` separators (the inverse of `splitLines`
on newline-free lines). -/
def joinLines : List (List Char) → List Char
  | [] => []
  | [l] => l
  | l :: ls => l ++ '\n' :: joinLines ls

/-- The accumulator rule of `parseSSE` for data lines:
`data = (data ? data + '\n' : '') + value`. -/
def joinData : List (List Char) → List Char :=
  fun ds => ds.foldl
    (fun acc v => (if acc.isEmpty then [] else acc ++ ['\n']) ++ v) []

/-! ## The connection manager (`src/lib/eventstream.js`)

The manager's mutable fields are modelled as a record; callback invocations,
timer arming and request aborts are modelled as a list of emitted actions.
Nullable JS fields (`_abortController`, `_authenticatedFetch`,
`reconnectTimer`, `heartbeatTimer`, `_readPromise`) are modelled as `Bool`
("is non-null"); `lastDataReceived` keeps its numeric value. -/

/-- Resolved authentication scheme (`'basic'`/`'digest'`; `none` in the
`Option` models the JS `null` for "no auth required"). -/
inductive AuthScheme
  | basic
  | digest
deriving DecidableEq, Repr

/-- The mutable state of a `WhatwattEventStream` instance. -/
structure StreamState where
  host : List Char
  port : Nat
  https : Bool
  username : Option (List Char)
  password : Option (List Char)
  authenticatedFetch : Bool
  authSchemeDetected : Option AuthScheme
  intentionallyStopped : Bool
  isConnected : Bool
  reconnectAttempts : Nat
  maxReconnectAttempts : Nat
  reconnectDelay : Nat
  reconnectTimer : Bool
  lastDataReceived : Option Nat
  heartbeatTimeout : Nat
  heartbeatTimer : Bool
  abortController : Bool
  readPromise : Bool
  onErrorSet : Bool
  onDisconnectSet : Bool
deriving DecidableEq, Repr

/-- Externally observable effects of a manager operation, in order. -/
inductive Action
  | onError (isUnauthorized : Bool) (statusCode : Option Nat)
  | onConnect
  | onDisconnect
  | armReconnectTimer (delay : Nat)
  | abortFetch
  | startCalled
deriving DecidableEq, Repr

/-- `_scheduleReconnect()` (`eventstream.js` lines 207–249): give up past the
attempt bound, no-op while a timer is pending, otherwise increment the
counter and arm a timer with delay `reconnectDelay * min(attempts, 5)`. -/
def scheduleReconnect (s : StreamState) : StreamState × List Action :=
  if s.reconnectAttempts ≥ s.maxReconnectAttempts then (s, [])
  else if s.reconnectTimer then (s, [])
  else
    let attempts := s.reconnectAttempts + 1
    let delay := s.reconnectDelay * min attempts 5
    ({ s with reconnectAttempts := attempts, reconnectTimer := true },
      [Action.armReconnectTimer delay])

/-- `stop()` (`eventstream.js` lines 163–184): clear the reconnect timer,
stop the heartbeat, mark intentionally stopped, abort an active request,
drop the read promise, mark disconnected, and invoke `onDisconnect` if the
callback is set. -/
def stop (s : StreamState) : StreamState × List Action :=
  ({ s with
      reconnectTimer := false
      heartbeatTimer := false
      intentionallyStopped := true
      abortController := false
      readPromise := false
      isConnected := false },
    (if s.abortController then [Action.abortFetch] else []) ++
      (if s.onDisconnectSet then [Action.onDisconnect] else []))

/-- The prologue of `start()` (`eventstream.js` lines 53–60): stop any
existing connection, then clear the intentionally-stopped flag and create a
fresh abort controller. -/
def startPre (s : StreamState) : StreamState × List Action :=
  let p := if s.abortController then stop s else (s, [])
  ({ p.1 with intentionallyStopped := false, abortController := true }, p.2)

/-- The HTTP-401 branch of `start()` (`eventstream.js` lines 93–100): build
an error tagged `isUnauthorized = true, statusCode = 401`, surface it via
`onError` when set, and — unless intentionally stopped — call
`_scheduleReconnect()`. -/
def handle401 (s : StreamState) : StreamState × List Action :=
  let errActs : List Action :=
    if s.onErrorSet then [Action.onError true (some 401)] else []
  if s.intentionallyStopped then (s, errActs)
  else
    let p := scheduleReconnect s
    (p.1, errActs ++ p.2)

/-- A `start()` attempt whose live-stream request is answered with HTTP 401:
the prologue followed by the 401 branch. -/
def startWith401 (s : StreamState) : StreamState × List Action :=
  let p := startPre s
  let q := handle401 p.1
  (q.1, p.2 ++ q.2)

/-- `_checkHeartbeat()` (`eventstream.js` lines 308–320): while connected
with a (truthy) last-data timestamp, if more than `heartbeatTimeout`
milliseconds have passed since the last data, `stop()` then
`_scheduleReconnect()`; otherwise do nothing.  `now` stands for
`Date.now()`; a timestamp of `0` is falsy in JS and treated as absent. -/
def checkHeartbeat (now : Nat) (s : StreamState) : StreamState × List Action :=
  if ¬ s.isConnected then (s, [])
  else
    match s.lastDataReceived with
    | none => (s, [])
    | some t =>
      if t = 0 then (s, [])
      else
        let timeSinceLastData := now - t
        if timeSinceLastData > s.heartbeatTimeout then
          let p := stop s
          let q := scheduleReconnect p.1
          (q.1, p.2 ++ q.2)
        else (s, [])

/-- The settings argument of `updateSettings` (host, port, https, username,
password), plus an identifier for an unrelated field such as the logger,
which the comparison ignores. -/
structure StreamOptions where
  host : List Char
  port : Nat
  https : Bool
  username : Option (List Char)
  password : Option (List Char)
  loggerId : Nat
deriving DecidableEq, Repr

/-- `updateSettings(newOptions)` (`eventstream.js` lines 264–285): restart
only when host, port, https, username or password differ; in that case adopt
the new fields (`host`/`port`/`https` via JS `||`, keeping the old value
when the new one is falsy), clear the cached authenticated fetch and the
detected scheme, reset the reconnect counter, `stop()`, and call `start()`
(modelled as the `startCalled` action). -/
def updateSettings (s : StreamState) (o : StreamOptions) :
    StreamState × List Action :=
  let needsRestart := o.host ≠ s.host ∨ o.port ≠ s.port ∨ o.https ≠ s.https
    ∨ o.username ≠ s.username ∨ o.password ≠ s.password
  if needsRestart then
    let s1 := { s with
      host := if o.host = [] then s.host else o.host
      port := if o.port = 0 then s.port else o.port
      https := o.https || s.https
      username := o.username
      password := o.password
      authenticatedFetch := false
      authSchemeDetected := none
      reconnectAttempts := 0 }
    let p := stop s1
    (p.1, p.2 ++ [Action.startCalled])
  else (s, [])

/-- A freshly constructed manager (constructor defaults, callbacks set):
attempts `0`, max `10`, base delay `5000`, heartbeat timeout `300000`, no
timers, not connected. -/
def initialState (host : List Char) : StreamState :=
  { host := host
    port := 80
    https := false
    username := none
    password := some "pw".toList
    authenticatedFetch := false
    authSchemeDetected := none
    intentionallyStopped := false
    isConnected := false
    reconnectAttempts := 0
    maxReconnectAttempts := 10
    reconnectDelay := 5000
    reconnectTimer := false
    lastDataReceived := none
    heartbeatTimeout := 300000
    heartbeatTimer := false
    abortController := false
    readPromise := false
    onErrorSet := true
    onDisconnectSet := true }

/-! ## The auth scheme detector (`detectAuthScheme` in the authentication
helpers)

The single unauthenticated probe is modelled by its outcome: either a
transport error (the promise rejects / the abort timer fires) or an HTTP
response with a status and an optional `WWW-Authenticate` header. -/

/-- The probe's HTTP response: status code and optional `WWW-Authenticate`
header value (`none` models a missing header, JS `null`). -/
structure ProbeResponse where
  status : Nat
  wwwAuthenticate : Option (List Char)
deriving DecidableEq, Repr

/-- JS `toLowerCase()` restricted to ASCII. -/
def jsToLower (cs : List Char) : List Char :=
  cs.map Char.toLower

/-- `wwwAuth.trim().split(/\s+/)[0]`: the first whitespace-delimited token
of the trimmed header. -/
def firstToken (h : List Char) : List Char :=
  (trimChars h).takeWhile (fun c => !(isJsSpace c))

/-- `detectAuthScheme` applied to the probe response: `200` ⇒ `null` (no
auth); `401` ⇒ lower-cased first challenge token selects `basic` or
`digest`, anything else (or a missing header, modelled like an empty token)
falls through to `digest`; every other status also returns `digest`. -/
def detectAuthScheme (r : ProbeResponse) : Option AuthScheme :=
  if r.status = 200 then none
  else if r.status = 401 then
    let scheme := match r.wwwAuthenticate with
      | some h => jsToLower (firstToken h)
      | none => []
    if scheme = "basic".toList then some AuthScheme.basic
    else if scheme = "digest".toList then some AuthScheme.digest
    else some AuthScheme.digest
  else some AuthScheme.digest

/-- The whole probe including transport failures: the `catch` block clears
the timeout and rethrows, so a transport error propagates unchanged and
no retry happens. -/
def detectAuthOutcome {ε : Type} :
    Except ε ProbeResponse → Except ε (Option AuthScheme)
  | Except.error e => Except.error e
  | Except.ok r => Except.ok (detectAuthScheme r)

theorem noRun3_newline (n : Nat) (rest : List Char) :
    noRun3 n ('\n' :: rest) = (decide (n + 1 < 3) && noRun3 (n + 1) rest) := by
  simp [noRun3]

theorem noRun3_other {c : Char} (h : c ≠ '\n') (n : Nat) (rest : List Char) :
    noRun3 n (c :: rest) = noRun3 0 rest := by
  simp [noRun3, h]

theorem noRun3_mono (cs : List Char) :
    ∀ {n m : Nat}, m ≤ n → noRun3 n cs = true → noRun3 m cs = true := by
  induction cs with
  | nil => intro n m _ _; simp [noRun3]
  | cons c rest ih =>
    intro n m hmn h
    by_cases hc : c = '\n'
    · subst hc
      rw [noRun3_newline] at h ⊢
      rcases (Bool.and_eq_true _ _).mp h with ⟨h1, h2⟩
      refine (Bool.and_eq_true _ _).mpr ⟨?_, ih (Nat.succ_le_succ hmn) h2⟩
      exact decide_eq_true (lt_of_le_of_lt (Nat.succ_le_succ hmn) (of_decide_eq_true h1))
    · rwa [noRun3_other hc] at h ⊢

theorem noRun3_of_append (p cs : List Char) :
    ∀ {n : Nat}, noRun3 n (p ++ cs) = true → noRun3 0 cs = true := by
  induction p with
  | nil => intro n h; exact noRun3_mono cs (Nat.zero_le _) h
  | cons c p' ih =>
    intro n h
    by_cases hc : c = '\n'
    · subst hc
      rw [List.cons_append, noRun3_newline] at h
      exact ih ((Bool.and_eq_true _ _).mp h).2
    · rw [List.cons_append, noRun3_other hc] at h
      exact ih h

theorem noRun3_of_suffix {x y : List Char} (hs : x <:+ y)
    (h : noRun3 0 y = true) : noRun3 0 x = true := by
  obtain ⟨p, rfl⟩ := hs
  exact noRun3_of_append p x h

/-! ## Structural lemmas about `splitBlocks` -/

theorem consOnHead_ne_nil (c : Char) (S : List (List Char)) :
    consOnHead c S ≠ [] := by
  cases S <;> simp [consOnHead]

theorem splitBlocks_ne_nil (cs : List Char) : splitBlocks cs ≠ [] := by
  induction cs using splitBlocks.induct with
  | case1 => simp [splitBlocks]
  | case2 rest ih => rw [splitBlocks.eq_2]; simp
  | case3 c rest h ih => rw [splitBlocks.eq_3 c rest h]; exact consOnHead_ne_nil c _

theorem getLastD_congr {α : Type} (l : List α) (d d' : α) (h : l ≠ []) :
    l.getLastD d = l.getLastD d' := by
  induction l generalizing d d' with
  | nil => exact absurd rfl h
  | cons a l ih =>
    cases l with
    | nil => simp
    | cons b l' => simp only [List.getLastD_cons]

theorem dropLeadingNewlines_suffix (cs : List Char) :
    dropLeadingNewlines cs <:+ cs := by
  induction cs with
  | nil => simp [dropLeadingNewlines]
  | cons c rest ih =>
    by_cases h : c = '\n'
    · subst h
      have heq : dropLeadingNewlines ('\n' :: rest) = dropLeadingNewlines rest := by
        simp [dropLeadingNewlines]
      rw [heq]
      exact ih.trans (List.suffix_cons '\n' rest)
    · simp [dropLeadingNewlines, h]

theorem dropLeadingNewlines_decomp (cs : List Char) :
    ∃ p, cs = p ++ dropLeadingNewlines cs := by
  obtain ⟨p, hp⟩ := dropLeadingNewlines_suffix cs
  exact ⟨p, hp.symm⟩

theorem dropLeadingNewlines_eq_nil {cs : List Char}
    (h : dropLeadingNewlines cs = []) : ∀ c ∈ cs, c = '\n' := by
  induction cs with
  | nil => simp
  | cons c rest ih =>
    by_cases hc : c = '\n'
    · subst hc
      simp only [dropLeadingNewlines, if_pos rfl] at h
      intro d hd
      rcases List.mem_cons.mp hd with h1 | h2
      · exact h1
      · exact ih h d h2
    · simp [dropLeadingNewlines, hc] at h

theorem dropLeadingNewlines_append_of_ne_nil {x : List Char} (y : List Char)
    (h : dropLeadingNewlines x ≠ []) :
    dropLeadingNewlines (x ++ y) = dropLeadingNewlines x ++ y := by
  induction x with
  | nil => simp [dropLeadingNewlines] at h
  | cons c rest ih =>
    by_cases hc : c = '\n'
    · subst hc
      simp only [dropLeadingNewlines, if_pos rfl] at h ⊢
      exact ih h
    · simp [dropLeadingNewlines, hc]

theorem splitBlocks_eq_singleton {x y : List Char}
    (h : splitBlocks x = [y]) : y = x := by
  induction x using splitBlocks.induct generalizing y with
  | case1 =>
    rw [splitBlocks.eq_1] at h
    exact (List.cons_eq_cons.mp h).1.symm
  | case2 rest ih =>
    rw [splitBlocks.eq_2] at h
    exact absurd (List.cons_eq_cons.mp h).2 (splitBlocks_ne_nil _)
  | case3 c rest hx ih =>
    rw [splitBlocks.eq_3 c rest hx] at h
    rcases hS : splitBlocks rest with _ | ⟨t, ts⟩
    · exact absurd hS (splitBlocks_ne_nil rest)
    · rw [hS] at h
      simp only [consOnHead] at h
      rcases List.cons_eq_cons.mp h with ⟨h1, h2⟩
      have ht : t = rest := ih (by rw [hS, h2])
      rw [← h1, ht]

theorem splitBlocks_of_not_hasDouble {x : List Char}
    (h : hasDouble x = false) : splitBlocks x = [x] := by
  induction x using splitBlocks.induct with
  | case1 => simp [splitBlocks]
  | case2 rest ih => simp [hasDouble] at h
  | case3 c rest hx ih =>
    have hr : hasDouble rest = false := by
      have h' := h
      simp only [hasDouble, Bool.or_eq_false_iff, Bool.and_eq_false_imp] at h'
      exact h'.2
    rw [splitBlocks.eq_3 c rest hx, ih hr]
    simp [consOnHead]

theorem two_le_splitBlocks_length_of_hasDouble {x : List Char}
    (h : hasDouble x = true) : 2 ≤ (splitBlocks x).length := by
  induction x using splitBlocks.induct with
  | case1 => simp [hasDouble] at h
  | case2 rest ih =>
    rw [splitBlocks.eq_2]
    have := splitBlocks_ne_nil (dropLeadingNewlines rest)
    cases hS : splitBlocks (dropLeadingNewlines rest) with
    | nil => exact absurd hS this
    | cons t ts => simp
  | case3 c rest hx ih =>
    have hr : hasDouble rest = true := by
      have h' := h
      simp only [hasDouble, Bool.or_eq_true_iff, Bool.and_eq_true, decide_eq_true_eq] at h'
      rcases h' with ⟨hc, hh⟩ | h2
      · cases rest with
        | nil => simp at hh
        | cons r rs =>
          simp only [List.head?_cons, Option.some.injEq] at hh
          exact (hx rs hc (by rw [hh])).elim
      · exact h2
    rw [splitBlocks.eq_3 c rest hx]
    rcases hS : splitBlocks rest with _ | ⟨t, ts⟩
    · exact absurd hS (splitBlocks_ne_nil rest)
    · have := ih hr
      rw [hS] at this
      simpa [consOnHead] using this

theorem getLastD_append {α : Type} (X : List α) :
    ∀ (Y : List α) (d : α), Y ≠ [] → (X ++ Y).getLastD d = Y.getLastD d := by
  induction X with
  | nil => intro Y d _; simp
  | cons a X' ih =>
    intro Y d hY
    rw [List.cons_append, List.getLastD_cons, ih Y a hY]
    exact getLastD_congr Y a d hY

/-- Splitting a concatenation: provided the concatenation has no run of three
newlines, `splitBlocks (a ++ b)` is obtained by keeping the completed tokens
of `a` and re-splitting the last (incomplete) token of `a` glued to `b`.
This is the algebraic heart of chunked SSE parsing. -/
theorem splitBlocks_append (a : List Char) :
    ∀ b, noRun3 0 (a ++ b) = true →
      splitBlocks (a ++ b) =
        (splitBlocks a).dropLast ++
          splitBlocks ((splitBlocks a).getLastD [] ++ b) := by
  induction a using splitBlocks.induct with
  | case1 =>
    intro b _
    simp [splitBlocks.eq_1]
  | case2 rest ih =>
    intro b h
    have h2 : noRun3 2 (rest ++ b) = true := by
      rw [List.cons_append, List.cons_append, noRun3_newline] at h
      have h' := ((Bool.and_eq_true _ _).mp h).2
      rw [noRun3_newline] at h'
      exact ((Bool.and_eq_true _ _).mp h').2
    rcases hd : dropLeadingNewlines rest with _ | ⟨d, ds⟩
    · -- `rest` is all newlines; the no-triple-run hypothesis forces `rest = []`
      have hrest : rest = [] := by
        cases rest with
        | nil => rfl
        | cons r rs =>
          have hr : r = '\n' := dropLeadingNewlines_eq_nil hd r (by simp)
          subst hr
          rw [List.cons_append, noRun3_newline] at h2
          simp at h2
      subst hrest
      simp only [List.nil_append] at h2
      have hb : dropLeadingNewlines b = b := by
        cases b with
        | nil => simp [dropLeadingNewlines]
        | cons x bs =>
          by_cases hx : x = '\n'
          · subst hx
            rw [noRun3_newline] at h2
            simp at h2
          · simp [dropLeadingNewlines, hx]
      have hsb : splitBlocks ['\n', '\n'] = [[], []] := by
        rw [splitBlocks.eq_2]
        simp [dropLeadingNewlines, splitBlocks.eq_1]
      have hL : ('\n' :: '\n' :: ([] : List Char)) ++ b = '\n' :: '\n' :: b := by simp
      rw [hL, splitBlocks.eq_2, hb]
      rw [show ('\n' :: '\n' :: ([] : List Char)) = ['\n', '\n'] from rfl, hsb]
      simp
    · have hne : dropLeadingNewlines rest ≠ [] := by rw [hd]; simp
      have hih : noRun3 0 (dropLeadingNewlines rest ++ b) = true := by
        obtain ⟨p, hp⟩ := dropLeadingNewlines_decomp rest
        have hsplit : rest ++ b = p ++ (dropLeadingNewlines rest ++ b) := by
          rw [← List.append_assoc, ← hp]
        have h0 : noRun3 0 (rest ++ b) = true := noRun3_mono _ (Nat.zero_le 2) h2
        rw [hsplit] at h0
        exact noRun3_of_append p _ h0
      have hLHS : splitBlocks (('\n' :: '\n' :: rest) ++ b) =
          [] :: splitBlocks (dropLeadingNewlines rest ++ b) := by
        rw [List.cons_append, List.cons_append, splitBlocks.eq_2,
          dropLeadingNewlines_append_of_ne_nil b hne]
      rw [hLHS, ih b hih, splitBlocks.eq_2]
      rcases hS' : splitBlocks (dropLeadingNewlines rest) with _ | ⟨t, ts⟩
      · exact absurd hS' (splitBlocks_ne_nil _)
      · cases ts with
        | nil =>
          simp [List.getLastD_cons]
        | cons u us =>
          simp only [List.getLastD_cons, List.dropLast_cons₂, List.cons_append,
            List.nil_append]
  | case3 c rest hx ih =>
    intro b h
    rcases hS : splitBlocks rest with _ | ⟨t, ts⟩
    · exact absurd hS (splitBlocks_ne_nil rest)
    cases rest with
    | nil =>
      have h1 : splitBlocks [c] = [[c]] := by
        rw [splitBlocks.eq_3 c [] (by intro r _ hr; cases hr)]
        simp [splitBlocks.eq_1, consOnHead]
      rw [h1]
      simp
    | cons r1 rest' =>
      have hx' : ∀ rest_1, c = '\n' → (r1 :: rest') ++ b = '\n' :: rest_1 → False := by
        intro rr hc hh
        rw [List.cons_append] at hh
        exact hx rest' hc (by rw [(List.cons_eq_cons.mp hh).1])
      have hrb : noRun3 0 ((r1 :: rest') ++ b) = true := by
        by_cases hc : c = '\n'
        · subst hc
          rw [List.cons_append, noRun3_newline] at h
          exact noRun3_mono _ (Nat.zero_le 1) ((Bool.and_eq_true _ _).mp h).2
        · rw [List.cons_append, noRun3_other hc] at h
          exact h
      have hLHS : splitBlocks ((c :: r1 :: rest') ++ b) =
          consOnHead c (splitBlocks ((r1 :: rest') ++ b)) := by
        rw [List.cons_append]
        exact splitBlocks.eq_3 c ((r1 :: rest') ++ b) hx'
      rw [hLHS, ih b hrb, splitBlocks.eq_3 c (r1 :: rest') hx, hS]
      cases ts with
      | nil =>
        have ht : t = r1 :: rest' := splitBlocks_eq_singleton hS
        subst ht
        simp only [consOnHead, List.dropLast_single, List.getLastD_cons,
          List.getLastD_nil, List.nil_append, List.cons_append]
        rw [splitBlocks.eq_3 c (r1 :: (rest' ++ b))
          (fun rr hc hh => hx' rr hc (by simpa using hh))]
        rfl
      | cons u us =>
        simp only [consOnHead, List.getLastD_cons, List.dropLast_cons₂,
          List.cons_append, List.nil_append]

theorem suffix_append_right {α : Type} {x y : List α} (z : List α)
    (h : x <:+ y) : x ++ z <:+ y ++ z := by
  obtain ⟨p, rfl⟩ := h
  exact ⟨p, by rw [List.append_assoc]⟩

theorem splitBlocks_getLastD_suffix (cs : List Char) :
    (splitBlocks cs).getLastD [] <:+ cs := by
  induction cs using splitBlocks.induct with
  | case1 => simp [splitBlocks.eq_1]
  | case2 rest ih =>
    rw [splitBlocks.eq_2, List.getLastD_cons]
    exact ih.trans ((dropLeadingNewlines_suffix rest).trans
      ((List.suffix_cons '\n' rest).trans (List.suffix_cons '\n' ('\n' :: rest))))
  | case3 c rest hx ih =>
    rw [splitBlocks.eq_3 c rest hx]
    rcases hS : splitBlocks rest with _ | ⟨t, ts⟩
    · exact absurd hS (splitBlocks_ne_nil rest)
    cases ts with
    | nil =>
      have ht : t = rest := splitBlocks_eq_singleton hS
      subst ht
      simp [consOnHead, List.getLastD_cons]
    | cons u us =>
      rw [hS] at ih
      simp only [consOnHead, List.getLastD_cons]
      simp only [List.getLastD_cons] at ih
      exact ih.trans (List.suffix_cons c rest)

theorem hasDouble_splitBlocks_getLastD (cs : List Char) :
    hasDouble ((splitBlocks cs).getLastD []) = false := by
  induction cs using splitBlocks.induct with
  | case1 => simp [splitBlocks.eq_1, hasDouble]
  | case2 rest ih => rw [splitBlocks.eq_2, List.getLastD_cons]; exact ih
  | case3 c rest hx ih =>
    rw [splitBlocks.eq_3 c rest hx]
    rcases hS : splitBlocks rest with _ | ⟨t, ts⟩
    · exact absurd hS (splitBlocks_ne_nil rest)
    cases ts with
    | nil =>
      have ht : t = rest := splitBlocks_eq_singleton hS
      subst ht
      simp only [consOnHead, List.getLastD_cons, List.getLastD_nil]
      by_contra hcontra
      have htrue : hasDouble (c :: t) = true := by
        cases hcase : hasDouble (c :: t) with
        | false => exact absurd hcase hcontra
        | true => rfl
      have h2 := two_le_splitBlocks_length_of_hasDouble htrue
      have hsplit : splitBlocks (c :: t) = [c :: t] := by
        rw [splitBlocks.eq_3 c t hx, hS]
        rfl
      rw [hsplit] at h2
      simp at h2
    | cons u us =>
      rw [hS] at ih
      simp only [consOnHead, List.getLastD_cons]
      simp only [List.getLastD_cons] at ih
      exact ih

/-! ## Composition of `parseSSE` over concatenation and chunk feeding -/

theorem parseSSE_append (a b : List Char) (h : noRun3 0 (a ++ b) = true) :
    (parseSSE (a ++ b)).1 = (parseSSE a).1 ++ (parseSSE ((parseSSE a).2 ++ b)).1 ∧
    (parseSSE (a ++ b)).2 = (parseSSE ((parseSSE a).2 ++ b)).2 := by
  have hB := splitBlocks_ne_nil ((splitBlocks a).getLastD [] ++ b)
  unfold parseSSE
  rw [splitBlocks_append a b h]
  constructor
  · rw [List.dropLast_append_of_ne_nil _ hB, List.map_append, List.filter_append]
  · rw [getLastD_append _ _ _ hB]

theorem parseSSE_of_not_hasDouble {x : List Char} (h : hasDouble x = false) :
    parseSSE x = ([], x) := by
  unfold parseSSE
  rw [splitBlocks_of_not_hasDouble h]
  simp

theorem feedChunks_spec (chunks : List (List Char)) :
    ∀ r, noRun3 0 (r ++ chunks.join) = true →
      (parseSSE (r ++ chunks.join)).1 =
        (feedChunks chunks r).1 ++ (parseSSE (feedChunks chunks r).2).1 ∧
      (parseSSE (r ++ chunks.join)).2 = (parseSSE (feedChunks chunks r).2).2 := by
  induction chunks with
  | nil =>
    intro r h
    simp [feedChunks]
  | cons c cs ih =>
    intro r h
    have hassoc : r ++ (c :: cs).join = (r ++ c) ++ cs.join := by
      simp [List.join]
    rw [hassoc] at h ⊢
    have hcomp := parseSSE_append (r ++ c) cs.join h
    have hsuffix : (parseSSE (r ++ c)).2 <:+ (r ++ c) := by
      unfold parseSSE
      exact splitBlocks_getLastD_suffix (r ++ c)
    have hih : noRun3 0 ((parseSSE (r ++ c)).2 ++ cs.join) = true :=
      noRun3_of_suffix (suffix_append_right cs.join hsuffix) h
    have hIH := ih (parseSSE (r ++ c)).2 hih
    simp only [feedChunks]
    exact ⟨by rw [hcomp.1, hIH.1, List.append_assoc], by rw [hcomp.2, hIH.2]⟩

theorem hasDouble_feedChunks (chunks : List (List Char)) :
    ∀ r, hasDouble r = false → hasDouble (feedChunks chunks r).2 = false := by
  induction chunks with
  | nil =>
    intro r h
    simpa [feedChunks] using h
  | cons c cs ih =>
    intro r _
    simp only [feedChunks]
    refine ih _ ?_
    show hasDouble (parseSSE (r ++ c)).2 = false
    unfold parseSSE
    exact hasDouble_splitBlocks_getLastD (r ++ c)

theorem noRun3_line_append (l : List Char) :
    ∀ (n : Nat) (rest : List Char), l ≠ [] → '\n' ∉ l →
      noRun3 n (l ++ rest) = noRun3 0 rest := by
  induction l with
  | nil =>
    intro n rest hne _
    exact absurd rfl hne
  | cons c l' ih =>
    intro n rest _ hnl
    have hc : c ≠ '\n' := fun hh => hnl (hh ▸ List.mem_cons_self c l')
    rw [List.cons_append, noRun3_other hc]
    cases hl' : l' with
    | nil => simp
    | cons d l'' =>
      rw [← hl']
      exact ih 0 rest (by rw [hl']; simp)
        (fun hm => hnl (List.mem_cons_of_mem c hm))

theorem noRun3_frame_append (ls : List (List Char)) :
    ∀ (n : Nat) (rest : List Char), GoodLines ls →
      noRun3 n (frameChars ls ++ rest) = noRun3 2 rest := by
  induction ls with
  | nil =>
    intro n rest h
    exact absurd rfl h.1
  | cons l ls' ih =>
    intro n rest h
    have hl := h.2 l (List.mem_cons_self _ _)
    cases ls' with
    | nil =>
      have heq : frameChars [l] ++ rest = l ++ ('\n' :: '\n' :: rest) := by
        simp [frameChars]
      rw [heq, noRun3_line_append l _ _ hl.1 hl.2, noRun3_newline]
      rw [noRun3_newline]
      simp
    | cons m ls'' =>
      have heq : frameChars (l :: m :: ls'') ++ rest =
          l ++ ('\n' :: (frameChars (m :: ls'') ++ rest)) := by
        simp [frameChars]
      rw [heq, noRun3_line_append l _ _ hl.1 hl.2, noRun3_newline]
      rw [ih 1 rest ⟨by simp, fun x hx => h.2 x (List.mem_cons_of_mem l hx)⟩]
      simp

theorem noRun3_wireChars (fs : List (List (List Char))) :
    ∀ n, GoodFrames fs → noRun3 n (wireChars fs) = true := by
  induction fs with
  | nil =>
    intro n _
    simp [wireChars, noRun3]
  | cons f fs' ih =>
    intro n h
    have heq : wireChars (f :: fs') = frameChars f ++ wireChars fs' := by
      simp [wireChars]
    rw [heq, noRun3_frame_append f n _ (h f (List.mem_cons_self _ _))]
    exact ih 2 (fun x hx => h x (List.mem_cons_of_mem f hx))

/-- Claim C2: For every well-formed SSE text (a concatenation of complete
frames with non-empty, newline-free lines) and every way of splitting it
into chunks, feeding the chunks sequentially through `parseSSE` — each time
prepending the previous call's remainder — and concatenating the emitted
frames yields exactly the frames of a single `parseSSE` call on the whole
text.  In particular, parsing the spec's first example chunk alone emits
zero frames with the chunk itself as remainder, and parsing remainder plus
the second chunk emits exactly one frame with event `live` and the full
JSON payload, with empty remainder. -/
theorem parseSSE_chunked_eq_whole :
    (∀ (fs : List (List (List Char))) (chunks : List (List Char)),
        GoodFrames fs → chunks.join = wireChars fs →
        (feedChunks chunks []).1 = (parseSSE (wireChars fs)).1) ∧
    parseSSE ("event: live\ndata: \x7b\"P_In\":1".toList) =
      ([], "event: live\ndata: \x7b\"P_In\":1".toList) ∧
    parseSSE ("event: live\ndata: \x7b\"P_In\":1".toList ++
        ",\"P_Out\":0\x7d\n\n".toList) =
      ([⟨"live".toList, "\x7b\"P_In\":1,\"P_Out\":0\x7d".toList⟩], []) := by
  refine ⟨?_, ?_, ?_⟩
  · intro fs chunks hgood hjoin
    have hnr : noRun3 0 ([] ++ chunks.join) = true := by
      rw [List.nil_append, hjoin]
      exact noRun3_wireChars fs 0 hgood
    have hmain := feedChunks_spec chunks [] hnr
    rw [List.nil_append, hjoin] at hmain
    have hrf : hasDouble (feedChunks chunks []).2 = false :=
      hasDouble_feedChunks chunks [] (by simp [hasDouble])
    rw [hmain.1, parseSSE_of_not_hasDouble hrf]
    simp
  · exact parseSSE_of_not_hasDouble (by decide)
  · have hfull : "event: live\ndata: \x7b\"P_In\":1".toList ++
        ",\"P_Out\":0\x7d\n\n".toList =
        "event: live\ndata: \x7b\"P_In\":1,\"P_Out\":0\x7d\n\n".toList := by decide
    have hsb : splitBlocks
        ("event: live\ndata: \x7b\"P_In\":1,\"P_Out\":0\x7d\n\n".toList) =
        ["event: live\ndata: \x7b\"P_In\":1,\"P_Out\":0\x7d".toList, []] := by
      set_option maxRecDepth 4000 in
      simp [splitBlocks, dropLeadingNewlines, consOnHead]
    rw [hfull]
    unfold parseSSE
    rw [hsb]
    decide

/-- Witness for C2: a concrete two-chunk split of the one-frame wire text
`"a\n\n"`, with the hypotheses discharged by evaluation. -/
theorem parseSSE_chunked_eq_whole_witness :
    (feedChunks [['a', '\n'], ['\n']] []).1 =
      (parseSSE (wireChars [[['a']]])).1 :=
  parseSSE_chunked_eq_whole.1 [[['a']]] [['a', '\n'], ['\n']]
    (by decide) (by decide)

/-! ## Per-block field handling (claims C8 and C9) -/

theorem splitLines_cons_other {c : Char} (rest : List Char)
    (h1 : c ≠ '\n') (h2 : c ≠ '\r') :
    splitLines (c :: rest) = consOnHead c (splitLines rest) :=
  splitLines.eq_4 c rest (fun _ hc _ => h2 hc) (fun hc => h1 hc)

theorem splitLines_single {l : List Char} (h1 : '\n' ∉ l) (h2 : '\r' ∉ l) :
    splitLines l = [l] := by
  induction l with
  | nil => rfl
  | cons c l' ih =>
    have hc1 : c ≠ '\n' := fun hh => h1 (hh ▸ List.mem_cons_self c l')
    have hc2 : c ≠ '\r' := fun hh => h2 (hh ▸ List.mem_cons_self c l')
    rw [splitLines_cons_other l' hc1 hc2,
      ih (fun hm => h1 (List.mem_cons_of_mem c hm))
        (fun hm => h2 (List.mem_cons_of_mem c hm))]
    rfl

theorem splitLines_line_append {l : List Char} (X : List Char)
    (h1 : '\n' ∉ l) (h2 : '\r' ∉ l) :
    splitLines (l ++ '\n' :: X) = l :: splitLines X := by
  induction l with
  | nil => rw [List.nil_append, splitLines.eq_3]
  | cons c l' ih =>
    have hc1 : c ≠ '\n' := fun hh => h1 (hh ▸ List.mem_cons_self c l')
    have hc2 : c ≠ '\r' := fun hh => h2 (hh ▸ List.mem_cons_self c l')
    rw [List.cons_append, splitLines_cons_other _ hc1 hc2,
      ih (fun hm => h1 (List.mem_cons_of_mem c hm))
        (fun hm => h2 (List.mem_cons_of_mem c hm))]
    rfl

theorem splitLines_joinLines (ls : List (List Char)) :
    ls ≠ [] → (∀ l ∈ ls, '\n' ∉ l ∧ '\r' ∉ l) →
    splitLines (joinLines ls) = ls := by
  induction ls with
  | nil => intro h _; exact absurd rfl h
  | cons l ls' ih =>
    intro _ h
    have hl := h l (List.mem_cons_self _ _)
    cases ls' with
    | nil => exact splitLines_single hl.1 hl.2
    | cons m ls'' =>
      show splitLines (joinLines (l :: m :: ls'')) = l :: m :: ls''
      rw [joinLines, splitLines_line_append _ hl.1 hl.2,
        ih (by simp) (fun x hx => h x (List.mem_cons_of_mem l hx))]
      simp

theorem foldl_processLine_skip (ls : List (List Char)) :
    ∀ st, (∀ l ∈ ls, ("event:".toList).isPrefixOf l = false ∧
        ("data:".toList).isPrefixOf l = false) →
      ls.foldl processLine st = st := by
  induction ls with
  | nil => intro st _; rfl
  | cons l ls' ih =>
    intro st h
    have hl := h l (List.mem_cons_self _ _)
    have hstep : processLine st l = st := by
      unfold processLine
      rw [if_neg (by rw [hl.1]; exact Bool.false_ne_true),
        if_neg (by rw [hl.2]; exact Bool.false_ne_true)]
    rw [List.foldl_cons, hstep]
    exact ih st (fun x hx => h x (List.mem_cons_of_mem l hx))

/-- Claim C8 counterexample: The buffer `"x\n\n"` consists of one complete
block `"x"` with no `event:` line and no `data:` line, yet `parseSSE` emits
a frame for it (with the default event name `message`), contradicting the
claim that such blocks are discarded. -/
theorem parseSSE_no_field_block_counterexample :
    (parseSSE "x\n\n".toList).1 = [⟨"message".toList, []⟩] ∧
    (parseSSE "x\n\n".toList).1 ≠ [] := by
  have hsb : splitBlocks "x\n\n".toList = [['x'], []] := by
    simp [splitBlocks, dropLeadingNewlines, consOnHead]
  unfold parseSSE
  rw [hsb]
  refine ⟨by decide, by decide⟩

/-- Claim C8 amended: A complete block with neither an `event:` line nor a
`data:` line is *not* discarded: the event name defaults to `message`
(which is non-empty), so the push guard keeps the frame
`{event: 'message', data: ''}`.  A complete block is discarded only when
its event name has been set to the empty string by an `event:` line with
empty value and it carries no data (e.g. the block `"event:"`). -/
theorem parseSSE_no_field_block_emits_message :
    (∀ block : List Char,
      (∀ l ∈ splitLines block, ("event:".toList).isPrefixOf l = false ∧
          ("data:".toList).isPrefixOf l = false) →
      parseBlock block = ⟨"message".toList, []⟩ ∧
        keepEvent (parseBlock block) = true) ∧
    parseSSE "x\n\n".toList = ([⟨"message".toList, []⟩], []) ∧
    parseSSE "event:\n\n".toList = ([], []) := by
  refine ⟨?_, ?_, ?_⟩
  · intro block h
    have hfold : parseBlock block = ⟨"message".toList, []⟩ := by
      unfold parseBlock
      rw [foldl_processLine_skip (splitLines block) _ h]
    exact ⟨hfold, by rw [hfold]; decide⟩
  · have hsb : splitBlocks "x\n\n".toList = [['x'], []] := by
      simp [splitBlocks, dropLeadingNewlines, consOnHead]
    unfold parseSSE
    rw [hsb]
    decide
  · have hsb : splitBlocks "event:\n\n".toList =
        ["event:".toList, []] := by
      simp [splitBlocks, dropLeadingNewlines, consOnHead]
    unfold parseSSE
    rw [hsb]
    decide

/-- Witness for C8 (amended): the block `"x"` has no field lines and is
parsed to the default frame. -/
theorem parseSSE_no_field_block_emits_message_witness :
    parseBlock ['x'] = ⟨"message".toList, []⟩ ∧
      keepEvent (parseBlock ['x']) = true :=
  parseSSE_no_field_block_emits_message.1 ['x'] (by decide)

theorem foldl_processLine_data (vs : List (List Char)) :
    ∀ (e d : List Char),
      ((vs.map (fun v => "data:".toList ++ v)).foldl processLine (e, d)) =
        (e, vs.foldl
          (fun acc v => (if acc.isEmpty then [] else acc ++ ['\n']) ++ trimChars v)
          d) := by
  induction vs with
  | nil => intro e d; rfl
  | cons v vs' ih =>
    intro e d
    have hstep : processLine (e, d) ("data:".toList ++ v) =
        (e, (if d.isEmpty then [] else d ++ ['\n']) ++ trimChars v) := by
      have hdrop : ("data:".toList ++ v).drop 5 = v := by simp
      simp [processLine, hdrop, List.isPrefixOf]
    rw [List.map_cons, List.foldl_cons, hstep, ih, List.foldl_cons]

/-- Claim C9 counterexample: For the buffer `"data:  a \n\n"` the claim
predicts the payload `" a "` (one leading space removed, the rest of the
value including the trailing space preserved); the code instead trims all
surrounding whitespace and yields `"a"`. -/
theorem parseSSE_data_trim_counterexample :
    (parseSSE "data:  a \n\n".toList).1 = [⟨"message".toList, ['a']⟩] ∧
    (parseSSE "data:  a \n\n".toList).1 ≠ [⟨"message".toList, " a ".toList⟩] := by
  have hsb : splitBlocks "data:  a \n\n".toList = ["data:  a ".toList, []] := by
    simp [splitBlocks, dropLeadingNewlines, consOnHead]
  unfold parseSSE
  rw [hsb]
  refine ⟨by decide, by decide⟩

/-- Claim C9 amended: Within a block, `parseSSE` accumulates the values of
all `data:` lines, trimming *all* leading and trailing whitespace from each
value (JS `trim()`, not just one leading space), and prepends a newline
before each value whenever the accumulator is already non-empty; `event:`
lines set the frame's event name (also trimmed), which defaults to
`message`. -/
theorem parseBlock_field_handling :
    (∀ vs : List (List Char), vs ≠ [] →
      (∀ v ∈ vs, '\n' ∉ v ∧ '\r' ∉ v) →
      parseBlock (joinLines (vs.map (fun v => "data:".toList ++ v))) =
        ⟨"message".toList, joinData (vs.map trimChars)⟩) ∧
    (∀ e : List Char, '\n' ∉ e → '\r' ∉ e →
      parseBlock ("event:".toList ++ e) = ⟨trimChars e, []⟩) := by
  constructor
  · intro vs hne h
    unfold parseBlock
    rw [splitLines_joinLines (vs.map (fun v => "data:".toList ++ v))
      (by simpa using hne)
      (by
        intro l hlm
        obtain ⟨v, hv, rfl⟩ := List.mem_map.mp hlm
        have hvp := h v hv
        exact ⟨by simp [hvp.1], by simp [hvp.2]⟩)]
    rw [foldl_processLine_data vs "message".toList []]
    unfold joinData
    rw [List.foldl_map]
  · intro e h1 h2
    unfold parseBlock
    rw [splitLines_single (l := "event:".toList ++ e) (by simp [h1])
      (by simp [h2])]
    have hdrop : ("event:".toList ++ e).drop 6 = e := by simp
    simp [processLine, List.isPrefixOf, hdrop]

/-- Witness for C9 (amended): two data lines `"data:  x "` and `"data: y"`
produce the payload `"x\ny"`, and `"event: live "` produces event name
`"live"`. -/
theorem parseBlock_field_handling_witness :
    parseBlock (joinLines ([ "  x ".toList, " y".toList ].map
        (fun v => "data:".toList ++ v))) =
      ⟨"message".toList, joinData (["  x ".toList, " y".toList].map trimChars)⟩ ∧
    parseBlock ("event:".toList ++ " live ".toList) =
      ⟨trimChars " live ".toList, []⟩ :=
  ⟨parseBlock_field_handling.1 ["  x ".toList, " y".toList] (by decide) (by decide),
   parseBlock_field_handling.2 " live ".toList (by decide) (by decide)⟩

/-! ## Claim C1: behaviour of a `start()` attempt answered with HTTP 401 -/

/-- Claim C1 counterexample: for a freshly constructed manager whose
`start()` attempt is answered with HTTP 401, the code *does* arm a reconnect
timer (attempt 1, delay 5000 ms), contradicting the claim that no reconnect
is scheduled and the manager stays idle. -/
theorem startWith401_counterexample :
    (startWith401 (initialState "h".toList)).1.reconnectTimer = true ∧
    (startWith401 (initialState "h".toList)).1.reconnectAttempts = 1 ∧
    Action.armReconnectTimer 5000 ∈ (startWith401 (initialState "h".toList)).2 := by
  decide

/-- Claim C1 amended: when the live-stream request of a `start()` attempt is
answered with HTTP 401, the manager surfaces an error tagged
`isUnauthorized = true, statusCode = 401` via `onError` and then — because
`start()` has just cleared the intentionally-stopped flag — schedules a
reconnect exactly like any other failure, subject to the usual guards: with
the attempt counter below the maximum (and no pending timer surviving the
prologue) a timer is armed with delay `reconnectDelay * min(attempts+1, 5)`
and the counter is incremented. -/
theorem startWith401_schedules_reconnect (s : StreamState)
    (hE : s.onErrorSet = true)
    (hT : s.reconnectTimer = false ∨ s.abortController = true)
    (hA : s.reconnectAttempts < s.maxReconnectAttempts) :
    Action.onError true (some 401) ∈ (startWith401 s).2 ∧
    (startWith401 s).1.reconnectTimer = true ∧
    (startWith401 s).1.reconnectAttempts = s.reconnectAttempts + 1 ∧
    Action.armReconnectTimer (s.reconnectDelay * min (s.reconnectAttempts + 1) 5)
      ∈ (startWith401 s).2 := by
  have hge : ¬ s.reconnectAttempts ≥ s.maxReconnectAttempts := Nat.not_le.mpr hA
  by_cases hab : s.abortController = true
  · simp [startWith401, startPre, handle401, scheduleReconnect, stop, hE, hab, hge]
  · have hT' : s.reconnectTimer = false := by
      rcases hT with h | h
      · exact h
      · exact absurd h hab
    simp [startWith401, startPre, handle401, scheduleReconnect, stop, hE, hab,
      hT', hge]

/-- Witness for the amended C1 at the freshly constructed manager. -/
theorem startWith401_schedules_reconnect_witness :
    Action.onError true (some 401) ∈
      (startWith401 (initialState "h".toList)).2 ∧
    (startWith401 (initialState "h".toList)).1.reconnectTimer = true ∧
    (startWith401 (initialState "h".toList)).1.reconnectAttempts = 0 + 1 ∧
    Action.armReconnectTimer
        ((initialState "h".toList).reconnectDelay * min (0 + 1) 5) ∈
      (startWith401 (initialState "h".toList)).2 :=
  startWith401_schedules_reconnect (initialState "h".toList)
    (by decide) (Or.inl (by decide)) (by decide)

/-! ## Claim C3: `onDisconnect` on consecutive `stop()` calls -/

/-- Claim C3 counterexample: with the `onDisconnect` callback set, the
second of two consecutive `stop()` calls invokes `onDisconnect` again (the
code calls it unconditionally at the end of every `stop()`), contradicting
the claim that two stops yield exactly one invocation. -/
theorem stop_twice_counterexample :
    (stop { initialState "h".toList with
        isConnected := true, abortController := true }).2.count
      Action.onDisconnect = 1 ∧
    ((stop (stop { initialState "h".toList with
        isConnected := true, abortController := true }).1).2).count
      Action.onDisconnect = 1 := by
  decide

/-- Claim C3 amended: every `stop()` call with the `onDisconnect` callback
set invokes `onDisconnect` exactly once — including a second consecutive
`stop()`, so two stops invoke it twice (the spec's per-stop guarantee, not
the claimed once-per-pair). -/
theorem stop_invokes_onDisconnect_each_time (s : StreamState)
    (hD : s.onDisconnectSet = true) :
    (stop s).2.count Action.onDisconnect = 1 ∧
    ((stop (stop s).1).2).count Action.onDisconnect = 1 := by
  by_cases hab : s.abortController = true <;>
    simp [stop, hD, hab, List.count_cons, List.count_append]

/-- Witness for the amended C3 at a connected manager. -/
theorem stop_invokes_onDisconnect_each_time_witness :
    (stop { initialState "h".toList with
        isConnected := true, abortController := true }).2.count
      Action.onDisconnect = 1 ∧
    ((stop (stop { initialState "h".toList with
        isConnected := true, abortController := true }).1).2).count
      Action.onDisconnect = 1 :=
  stop_invokes_onDisconnect_each_time
    { initialState "h".toList with isConnected := true, abortController := true }
    (by decide)

/-! ## Claim C4: the heartbeat poll -/

/-- Claim C4: while connected with a last-data timestamp, a heartbeat poll
that finds more than `heartbeatTimeout` milliseconds elapsed tears the
connection down and schedules a reconnect — `stop()` followed by
`_scheduleReconnect()`, exactly the transport-error path — leaving the
manager disconnected, intentionally stopped, with the heartbeat timer
cleared, and (below the attempt bound) a reconnect timer armed with the
usual backoff delay; when the manager is not connected, or the elapsed time
is within the threshold, the poll changes nothing and emits nothing. -/
theorem checkHeartbeat_spec (now : Nat) (s : StreamState) :
    (∀ t, s.isConnected = true → s.lastDataReceived = some t → t ≠ 0 →
      now - t > s.heartbeatTimeout →
      checkHeartbeat now s =
        ((scheduleReconnect (stop s).1).1,
          (stop s).2 ++ (scheduleReconnect (stop s).1).2) ∧
      (checkHeartbeat now s).1.isConnected = false ∧
      (checkHeartbeat now s).1.intentionallyStopped = true ∧
      (checkHeartbeat now s).1.heartbeatTimer = false ∧
      (s.reconnectAttempts < s.maxReconnectAttempts →
        (checkHeartbeat now s).1.reconnectTimer = true ∧
        Action.armReconnectTimer
            (s.reconnectDelay * min (s.reconnectAttempts + 1) 5)
          ∈ (checkHeartbeat now s).2)) ∧
    (s.isConnected = false → checkHeartbeat now s = (s, [])) ∧
    (∀ t, s.lastDataReceived = some t → now - t ≤ s.heartbeatTimeout →
      checkHeartbeat now s = (s, [])) := by
  refine ⟨?_, ?_, ?_⟩
  · intro t hc hl ht0 hgt
    have hmain : checkHeartbeat now s =
        ((scheduleReconnect (stop s).1).1,
          (stop s).2 ++ (scheduleReconnect (stop s).1).2) := by
      simp [checkHeartbeat, hc, hl, ht0, hgt]
    refine ⟨hmain, ?_, ?_, ?_, ?_⟩
    · rw [hmain]; simp only [scheduleReconnect, stop]; split <;> rfl
    · rw [hmain]; simp only [scheduleReconnect, stop]; split <;> rfl
    · rw [hmain]; simp only [scheduleReconnect, stop]; split <;> rfl
    · intro hA
      have hnle : ¬ s.maxReconnectAttempts ≤ s.reconnectAttempts := Nat.not_le.mpr hA
      rw [hmain]
      constructor
      · simp [scheduleReconnect, stop, hnle]
      · simp [scheduleReconnect, stop, hnle]
  · intro hnc
    simp [checkHeartbeat, hnc]
  · intro t hl hle
    rcases hcase : s.isConnected with _ | _
    · simp [checkHeartbeat, hcase]
    · by_cases ht0 : t = 0
      · simp [checkHeartbeat, hcase, hl, ht0]
      · simp [checkHeartbeat, hcase, hl, ht0, Nat.not_lt.mpr hle]

/-- Witness for C4: a connected manager, last data at `t = 5`, polled at
`now = 300006` (one past the default threshold) is torn down with a
reconnect timer armed; an unconnected manager is untouched. -/
theorem checkHeartbeat_spec_witness :
    ((checkHeartbeat 300006 { initialState "h".toList with
        isConnected := true, lastDataReceived := some 5 }).1.isConnected = false ∧
      (checkHeartbeat 300006 { initialState "h".toList with
        isConnected := true, lastDataReceived := some 5 }).1.reconnectTimer = true) ∧
    (checkHeartbeat 300006 (initialState "h".toList) =
      (initialState "h".toList, [])) := by
  constructor
  · have h := (checkHeartbeat_spec 300006 { initialState "h".toList with
        isConnected := true, lastDataReceived := some 5 }).1 5 (by decide)
      (by decide) (by decide) (by decide)
    exact ⟨h.2.1, (h.2.2.2.2 (by decide)).1⟩
  · exact (checkHeartbeat_spec 300006 (initialState "h".toList)).2.1 (by decide)

/-! ## Claim C5: `_scheduleReconnect` guards and backoff -/

/-- Claim C5: `_scheduleReconnect` is a no-op while a timer is pending or
once the attempt counter has reached the maximum (so with the default
maximum of 10 the counter never exceeds 10 without external reset);
otherwise it increments the counter and arms a single timer with delay
`reconnectDelay * min(attempts, 5)` — with the default base delay 5000 ms
this gives 5000, 10000, 15000, 20000, 25000 and stays capped at 25000. -/
theorem scheduleReconnect_spec (s : StreamState) :
    (s.reconnectTimer = true → scheduleReconnect s = (s, [])) ∧
    (s.reconnectAttempts ≥ s.maxReconnectAttempts →
      scheduleReconnect s = (s, [])) ∧
    (s.reconnectTimer = false → s.reconnectAttempts < s.maxReconnectAttempts →
      scheduleReconnect s =
        ({ s with
            reconnectAttempts := s.reconnectAttempts + 1
            reconnectTimer := true },
          [Action.armReconnectTimer
            (s.reconnectDelay * min (s.reconnectAttempts + 1) 5)])) ∧
    (s.reconnectAttempts ≤ s.maxReconnectAttempts →
      (scheduleReconnect s).1.reconnectAttempts ≤ s.maxReconnectAttempts) ∧
    (s.reconnectDelay = 5000 →
      s.reconnectDelay * min (s.reconnectAttempts + 1) 5 ≤ 25000) := by
  refine ⟨?_, ?_, ?_, ?_, ?_⟩
  · intro hT
    by_cases hge : s.reconnectAttempts ≥ s.maxReconnectAttempts <;>
      simp [scheduleReconnect, hT, hge]
  · intro hge
    simp [scheduleReconnect, hge]
  · intro hT hA
    simp [scheduleReconnect, hT, Nat.not_le.mpr hA]
  · intro hle
    by_cases hge : s.reconnectAttempts ≥ s.maxReconnectAttempts
    · simp [scheduleReconnect, hge]
      exact hle
    · by_cases hT : s.reconnectTimer = true
      · simp [scheduleReconnect, hge, hT]
        exact hle
      · simp [scheduleReconnect, hge, hT]
        omega
  · intro hd
    rw [hd]
    have : min (s.reconnectAttempts + 1) 5 ≤ 5 := Nat.min_le_right _ _
    omega

/-- Witness for C5 at a pending-timer state, an exhausted state, and the
fresh state. -/
theorem scheduleReconnect_spec_witness :
    scheduleReconnect { initialState "h".toList with reconnectTimer := true } =
      ({ initialState "h".toList with reconnectTimer := true }, []) ∧
    scheduleReconnect { initialState "h".toList with reconnectAttempts := 10 } =
      ({ initialState "h".toList with reconnectAttempts := 10 }, []) ∧
    scheduleReconnect (initialState "h".toList) =
      ({ initialState "h".toList with
          reconnectAttempts := 1
          reconnectTimer := true },
        [Action.armReconnectTimer 5000]) :=
  ⟨(scheduleReconnect_spec _).1 (by decide),
   (scheduleReconnect_spec _).2.1 (by decide),
   by
    have h := (scheduleReconnect_spec (initialState "h".toList)).2.2.1
      (by decide) (by decide)
    simpa using h⟩

/-! ## Claim C7: `updateSettings` -/

/-- Claim C7: `updateSettings` restarts only on a connection-relevant
difference.  When host, port, https, username and password all equal the
current configuration the call is a complete no-op (the state is unchanged
and nothing is emitted, regardless of unrelated fields such as the logger);
when any of them differs the cached authenticated fetch and detected scheme
are invalidated, the reconnect counter is reset, the connection is stopped
(`onDisconnect` fires when set) and `start()` is called again. -/
theorem updateSettings_spec (s : StreamState) (o : StreamOptions) :
    (o.host = s.host → o.port = s.port → o.https = s.https →
      o.username = s.username → o.password = s.password →
      updateSettings s o = (s, [])) ∧
    ((o.host ≠ s.host ∨ o.port ≠ s.port ∨ o.https ≠ s.https ∨
        o.username ≠ s.username ∨ o.password ≠ s.password) →
      (updateSettings s o).1.authenticatedFetch = false ∧
      (updateSettings s o).1.authSchemeDetected = none ∧
      (updateSettings s o).1.reconnectAttempts = 0 ∧
      (updateSettings s o).1.isConnected = false ∧
      (updateSettings s o).1.intentionallyStopped = true ∧
      Action.startCalled ∈ (updateSettings s o).2 ∧
      (s.onDisconnectSet = true →
        Action.onDisconnect ∈ (updateSettings s o).2)) := by
  constructor
  · intro h1 h2 h3 h4 h5
    simp [updateSettings, h1, h2, h3, h4, h5]
  · intro hdiff
    have hif : updateSettings s o =
        (let s1 := { s with
          host := if o.host = [] then s.host else o.host
          port := if o.port = 0 then s.port else o.port
          https := o.https || s.https
          username := o.username
          password := o.password
          authenticatedFetch := false
          authSchemeDetected := none
          reconnectAttempts := 0 }
         ((stop s1).1, (stop s1).2 ++ [Action.startCalled])) := by
      simp only [updateSettings]
      rw [if_pos hdiff]
    rw [hif]
    refine ⟨by simp [stop], by simp [stop], by simp [stop], by simp [stop],
      by simp [stop], by simp, ?_⟩
    intro hD
    simp [stop, hD]

/-- Witness for C7: changing nothing but the logger is a no-op; changing the
port restarts. -/
theorem updateSettings_spec_witness :
    updateSettings (initialState "h".toList)
      { host := "h".toList, port := 80, https := false, username := none,
        password := some "pw".toList, loggerId := 42 } =
      (initialState "h".toList, []) ∧
    Action.startCalled ∈
      (updateSettings (initialState "h".toList)
        { host := "h".toList, port := 8080, https := false, username := none,
          password := some "pw".toList, loggerId := 0 }).2 :=
  ⟨(updateSettings_spec _ _).1 rfl rfl rfl rfl rfl,
   ((updateSettings_spec (initialState "h".toList)
      { host := "h".toList, port := 8080, https := false, username := none,
        password := some "pw".toList, loggerId := 0 }).2
      (by right; left; decide)).2.2.2.2.2.1⟩

/-- Claim C6 counterexample: a `204` response — a 2xx success — yields
`digest`, not `none` as the claim's "2xx ⇒ none" predicts; only an exact
`200` yields `none`. -/
theorem detectAuthScheme_2xx_counterexample :
    detectAuthScheme ⟨204, none⟩ = some AuthScheme.digest ∧
    detectAuthScheme ⟨204, none⟩ ≠ none := by
  decide

/-- Claim C6 amended: the probe is evaluated once with no internal retry;
a response with status exactly `200` (not any 2xx) yields no auth scheme; a
`401` whose `WWW-Authenticate` first token lower-cases to `basic` yields
`basic` and to `digest` yields `digest`; a `401` with any other token or a
missing header yields `digest`; a transport failure propagates as the
thrown error. -/
theorem detectAuthScheme_spec :
    (∀ r : ProbeResponse, r.status = 200 → detectAuthScheme r = none) ∧
    (∀ (r : ProbeResponse) (h : List Char), r.status = 401 →
      r.wwwAuthenticate = some h → jsToLower (firstToken h) = "basic".toList →
      detectAuthScheme r = some AuthScheme.basic) ∧
    (∀ (r : ProbeResponse) (h : List Char), r.status = 401 →
      r.wwwAuthenticate = some h → jsToLower (firstToken h) = "digest".toList →
      detectAuthScheme r = some AuthScheme.digest) ∧
    (∀ (r : ProbeResponse) (h : List Char), r.status = 401 →
      r.wwwAuthenticate = some h → jsToLower (firstToken h) ≠ "basic".toList →
      detectAuthScheme r = some AuthScheme.digest) ∧
    (∀ r : ProbeResponse, r.status = 401 → r.wwwAuthenticate = none →
      detectAuthScheme r = some AuthScheme.digest) ∧
    detectAuthScheme ⟨401, some "Basic realm=\"x\"".toList⟩ =
      some AuthScheme.basic ∧
    detectAuthScheme ⟨401, some "Digest qop=\"auth\"".toList⟩ =
      some AuthScheme.digest ∧
    (∀ (ε : Type) (e : ε), detectAuthOutcome (Except.error e) = Except.error e) := by
  refine ⟨?_, ?_, ?_, ?_, ?_, by decide, by decide, ?_⟩
  · intro r h200
    simp [detectAuthScheme, h200]
  · intro r h h401 hw hb
    have hr : r.status ≠ 200 := by rw [h401]; decide
    simp [detectAuthScheme, hr, h401, hw, hb]
  · intro r h h401 hw hd
    have hr : r.status ≠ 200 := by rw [h401]; decide
    by_cases hb : jsToLower (firstToken h) = "basic".toList
    · simp [detectAuthScheme, hr, h401, hw, hb]
      rw [hb] at hd
      exact absurd hd.symm (by decide)
    · simp [detectAuthScheme, hr, h401, hw, hb, hd]
  · intro r h h401 hw hb
    have hr : r.status ≠ 200 := by rw [h401]; decide
    by_cases hd : jsToLower (firstToken h) = "digest".toList
    · simp [detectAuthScheme, hr, h401, hw, hd]
    · simp [detectAuthScheme, hr, h401, hw, hd]
      exact hb
  · intro r h401 hw
    have hr : r.status ≠ 200 := by rw [h401]; decide
    simp [detectAuthScheme, hr, h401, hw]
  · intro ε e
    rfl

/-- Witness for the amended C6: a `200` probe yields no scheme, and a `401`
probe with a `Basic` challenge yields `basic`. -/
theorem detectAuthScheme_spec_witness :
    detectAuthScheme ⟨200, none⟩ = none ∧
    detectAuthScheme ⟨401, some "Basic realm=\"x\"".toList⟩ =
      some AuthScheme.basic :=
  ⟨detectAuthScheme_spec.1 ⟨200, none⟩ rfl,
   detectAuthScheme_spec.2.1 ⟨401, some "Basic realm=\"x\"".toList⟩
     "Basic realm=\"x\"".toList rfl rfl (by decide)⟩

/-- Claim C10: any probe response whose status is neither `200` nor `401`
(e.g. `500`, `302`, or a non-200 success like `204`) makes
`detectAuthScheme` return `digest` rather than throw; only transport-level
failures propagate as errors. -/
theorem detectAuthScheme_other_status (r : ProbeResponse)
    (h200 : r.status ≠ 200) (h401 : r.status ≠ 401) :
    detectAuthScheme r = some AuthScheme.digest ∧
    (∀ ε : Type, detectAuthOutcome (ε := ε) (Except.ok r) =
      Except.ok (some AuthScheme.digest)) ∧
    (∀ (ε : Type) (e : ε), detectAuthOutcome (Except.error e) = Except.error e) := by
  have hd : detectAuthScheme r = some AuthScheme.digest := by
    simp [detectAuthScheme, h200, h401]
  exact ⟨hd, fun ε => by simp [detectAuthOutcome, hd], fun ε e => rfl⟩

/-- Witness for C10 at the statuses named by the claim. -/
theorem detectAuthScheme_other_status_witness :
    detectAuthScheme ⟨500, none⟩ = some AuthScheme.digest ∧
    detectAuthScheme ⟨302, none⟩ = some AuthScheme.digest ∧
    detectAuthScheme ⟨204, none⟩ = some AuthScheme.digest :=
  ⟨(detectAuthScheme_other_status ⟨500, none⟩ (by decide) (by decide)).1,
   (detectAuthScheme_other_status ⟨302, none⟩ (by decide) (by decide)).1,
   (detectAuthScheme_other_status ⟨204, none⟩ (by decide) (by decide)).1⟩

end Whatwatt
